import Mathlib

set_option autoImplicit false

namespace RobotWritersRoom

/-!
Shallow embedding of the storage/query engine of the repository
(`state/store.py` and `state/jsonl_store.py`).

Conventions used throughout:
* Python strings are Lean `String`s; scanning-style string code is written
  over `String.data` (lists of characters) so that it stays structurally
  recursive and kernel-evaluable.
* Python `datetime` instants are modelled as seconds since 0001-01-01 in the
  proleptic Gregorian calendar (`Int`); `datetime - timedelta` becomes
  integer subtraction, which agrees with Python's calendar arithmetic under
  this encoding.
* Python dicts are association lists with unique keys, updated in place
  (`dictUpdate`) exactly as CPython dicts are: an existing key keeps its
  position, a new key is appended.
-/

/-! ### Character/string helpers (Python string primitives) -/

/-- Lexicographic `≤` on character lists by code point, as Python compares
strings. -/
def charListLe : List Char → List Char → Bool
  | [], _ => true
  | _ :: _, [] => false
  | a :: as, b :: bs =>
    if a.val < b.val then true
    else if b.val < a.val then false
    else charListLe as bs

/-- Python `a <= b` on strings (code-point lexicographic). -/
def strLe (a b : String) : Bool := charListLe a.data b.data

/-- Python `int(num)` on a string of ASCII digits. -/
def digitsToNat (ds : List Char) : Nat :=
  ds.foldl (fun n c => n * 10 + (c.toNat - 48)) 0

/-! ### Calendar arithmetic (the fragment of `datetime` the engine uses) -/

/-- Gregorian leap-year test. -/
def isLeap (y : Nat) : Bool :=
  (y % 4 = 0 && !(y % 100 = 0)) || y % 400 = 0

/-- Length of month `m` in year `y` (months are 1-based). -/
def monthLen (y m : Nat) : Nat :=
  if m = 2 then (if isLeap y then 29 else 28)
  else if m = 4 ∨ m = 6 ∨ m = 9 ∨ m = 11 then 30
  else 31

/-- Days in year `y` strictly before month `m` (1-based). -/
def daysBeforeMonth (y m : Nat) : Nat :=
  let base :=
    if m = 1 then 0 else if m = 2 then 31 else if m = 3 then 59
    else if m = 4 then 90 else if m = 5 then 120 else if m = 6 then 151
    else if m = 7 then 181 else if m = 8 then 212 else if m = 9 then 243
    else if m = 10 then 273 else if m = 11 then 304 else 334
  if 3 ≤ m ∧ isLeap y then base + 1 else base

/-- Days strictly before January 1 of year `y` counting from 0001-01-01
(proleptic Gregorian). -/
def daysBeforeYear (y : Nat) : Nat :=
  365 * (y - 1) + (y - 1) / 4 + (y - 1) / 400 - (y - 1) / 100

/-- Seconds since 0001-01-01T00:00:00 of a calendar instant. -/
def toEpochSec (y mo d h mi s : Nat) : Int :=
  (((daysBeforeYear y + daysBeforeMonth y mo + (d - 1)) * 86400
      + h * 3600 + mi * 60 + s : Nat) : Int)

/-- Raw field extraction of `datetime.fromisoformat` on the two shapes this
system exchanges: `YYYY-MM-DD` and `YYYY-MM-DDTHH:MM:SS`.  Other shapes are
rejected (`none`). -/
def dtChars : List Char → Option (Nat × Nat × Nat × Nat × Nat × Nat)
  | [y1, y2, y3, y4, '-', m1, m2, '-', d1, d2] =>
    if ([y1, y2, y3, y4, m1, m2, d1, d2].all Char.isDigit) then
      some (digitsToNat [y1, y2, y3, y4], digitsToNat [m1, m2],
            digitsToNat [d1, d2], 0, 0, 0)
    else none
  | [y1, y2, y3, y4, '-', m1, m2, '-', d1, d2, 'T',
     h1, h2, ':', n1, n2, ':', s1, s2] =>
    if ([y1, y2, y3, y4, m1, m2, d1, d2, h1, h2, n1, n2, s1, s2].all
          Char.isDigit) then
      some (digitsToNat [y1, y2, y3, y4], digitsToNat [m1, m2],
            digitsToNat [d1, d2], digitsToNat [h1, h2],
            digitsToNat [n1, n2], digitsToNat [s1, s2])
    else none
  | _ => none

/-- Character-level body of `_dt_from_iso(s)`: every `"Z"` is removed
(`s.replace("Z", "")`) and the rest is parsed as an ISO instant; `none`
models the `ValueError` raised by `datetime.fromisoformat` on unparsable
input, including out-of-range calendar fields. -/
def dt_from_iso_data (l : List Char) : Option Int :=
  match dtChars (l.filter (fun c => !(c = 'Z'))) with
  | some (y, mo, d, h, mi, sec) =>
    if 1 ≤ y ∧ 1 ≤ mo ∧ mo ≤ 12 ∧ 1 ≤ d ∧ d ≤ monthLen y mo
        ∧ h ≤ 23 ∧ mi ≤ 59 ∧ sec ≤ 59 then
      some (toEpochSec y mo d h mi sec)
    else none
  | none => none

/-- `_dt_from_iso(s)` of `state/jsonl_store.py` (and the absolute branch of
`parse_relative`), on the string's characters. -/
def dt_from_iso (s : String) : Option Int := dt_from_iso_data s.data

/-! ### `parse_relative` (`state/store.py`, lines 191-239) -/

/-- `parse_relative(s)` with the current instant `now` passed explicitly
(the Python code reads `datetime.utcnow()`).  Faithful translation:
* empty input (`if not s`) gives `none`;
* a string that ends with `'Z'` or contains `'T'` takes the absolute branch,
  `fromisoformat(s.replace("Z", ""))`, failures giving `none`;
* otherwise a string not starting with `'-'` gives `none`;
* otherwise `num` collects every digit anywhere in the string
  (`"".join(ch for ch in s if ch.isdigit())`), and the unit is the last
  character lower-cased when it is alphabetic, else `'m'`;
* no digit at all gives `none` (`int("")` raises); a trailing letter outside
  `{m,h,d,w}` falls through every branch to `none`; otherwise the result is
  `now` minus the offset. -/
def parse_relative_data (l : List Char) (now : Int) : Option Int :=
  if l = [] then none
  else if l.getLast? = some 'Z' ∨ 'T' ∈ l then
    dt_from_iso_data l
  else if ¬ l.head? = some '-' then none
  else
    let num := l.filter Char.isDigit
    let unit : Char :=
      match l.getLast? with
      | some c => if c.isAlpha then c.toLower else 'm'
      | none => 'm'
    if num = [] then none
    else
      let val := digitsToNat num
      if unit = 'm' then some (now - ((val * 60 : Nat) : Int))
      else if unit = 'h' then some (now - ((val * 3600 : Nat) : Int))
      else if unit = 'd' then some (now - ((val * 86400 : Nat) : Int))
      else if unit = 'w' then some (now - ((val * 604800 : Nat) : Int))
      else none

/-- `parse_relative(s)` on the string's characters. -/
def parse_relative (s : String) (now : Int) : Option Int :=
  parse_relative_data s.data now

/-! ### Python-dict association lists -/

/-- `k in m` on a CPython dict. -/
def dictContains {K V : Type} [DecidableEq K] : List (K × V) → K → Bool
  | [], _ => false
  | kv :: rest, k => if kv.1 = k then true else dictContains rest k

/-- `m[k] = v` on a CPython dict: an existing key keeps its position and is
overwritten in place, a new key is appended at the end. -/
def dictUpdate {K V : Type} [DecidableEq K]
    (m : List (K × V)) (k : K) (v : V) : List (K × V) :=
  if dictContains m k then
    m.map (fun kv => if kv.1 = k then (k, v) else kv)
  else m ++ [(k, v)]

/-- `m.pop(k, None)`'s effect on the dict: the entry for `k` is removed. -/
def dictPop {K V : Type} [DecidableEq K]
    (m : List (K × V)) (k : K) : List (K × V) :=
  m.filter (fun kv => ¬ kv.1 = k)

/-- `m.get(k)` / `m[k]`: the value stored at `k`, if any. -/
def dictGet? {K V : Type} [DecidableEq K] : List (K × V) → K → Option V
  | [], _ => none
  | kv :: rest, k => if kv.1 = k then some kv.2 else dictGet? rest k

/-- `dict.update(props)`: fold the updates of `props` in order. -/
def dictUpdateAll {K V : Type} [DecidableEq K]
    (m : List (K × V)) (props : List (K × V)) : List (K × V) :=
  props.foldl (fun acc kv => dictUpdate acc kv.1 kv.2) m

/-- The value of the *last* entry with key `k`, if any (folded dict updates
resolve to the last write). -/
def lastVal? {K V : Type} [DecidableEq K] : List (K × V) → K → Option V
  | [], _ => none
  | kv :: rest, k =>
    match lastVal? rest k with
    | some v => some v
    | none => if kv.1 = k then some kv.2 else none

/-! ### Event model (`state/store.py`) -/

/-- The parts of the `meta` map the engine reads: `meta.get("tags")` in the
query engine, plus the `card_id` entry written by `upsert_card`. -/
structure Meta where
  tags : List String := []
  card_id : Option String := none
  deriving DecidableEq, Repr

/-- `Event` of `state/store.py`: id, ISO timestamp string, actor, operation
(`"assert" | "set" | "retract"` by convention, but any string is accepted),
subject/predicate/object triple, metadata. -/
structure Event where
  id : String
  ts : String
  actor : String
  op : String
  triple : String × String × String
  meta : Meta
  deriving DecidableEq, Repr

/-- Compact constructor for a fully explicit event record. -/
def mkEv (i ts a o : String) (tr : String × String × String) (m : Meta) :
    Event :=
  { id := i, ts := ts, actor := a, op := o, triple := tr, meta := m }

/-- One line of `events.jsonl` as the readers see it: either it decodes to an
event whose triple has exactly three components, or it is malformed.  Every
reader (`_iter_events`, `materialize`'s replay, `tail`) treats an
undecodable line and a decodable line with a wrong-length triple the same
way — it is skipped — so both are folded into `malformed`. -/
inductive LogLine where
  | ev (e : Event)
  | malformed
  deriving DecidableEq, Repr

/-- In-memory latest-value index `_latest_by_sp`:
`(subject, predicate) ↦ (ts, value)`. -/
abbrev Latest := List ((String × String) × (String × String))

/-- Card property maps are string-keyed dicts; property values are modelled
as the strings the engine stores and compares. -/
abbrev Props := List (String × String)

/-- The materialized card index `_cards`: normalized card key ↦ properties. -/
abbrev Cards := List (String × Props)

/-- The state one `JSONLStore` works with: the event-log file contents plus
the two in-memory indices (`_latest_by_sp`, `_cards`). -/
structure StoreSt where
  log : List LogLine := []
  latest : Latest := []
  cards : Cards := []
  deriving DecidableEq, Repr

/-! ### `append` (`state/jsonl_store.py`, lines 103-125) -/

/-- One iteration of the `append` loop: write the record to the log, then
update `_latest_by_sp` — `set`/`assert` store `(ts, o)` for `(s, p)`,
`retract` pops the `(s, p)` entry, any other op leaves the index alone. -/
def appendStep (st : StoreSt) (e : Event) : StoreSt :=
  let st := { st with log := st.log ++ [LogLine.ev e] }
  let s := e.triple.1
  let p := e.triple.2.1
  let o := e.triple.2.2
  if e.op = "set" ∨ e.op = "assert" then
    { st with latest := dictUpdate st.latest (s, p) (e.ts, o) }
  else if e.op = "retract" then
    { st with latest := dictPop st.latest (s, p) }
  else st

/-- `append(events)`: the final state and the returned list of ids (each
event's id is appended to the result in call order). -/
def appendEvents (st : StoreSt) (evs : List Event) : StoreSt × List String :=
  (evs.foldl appendStep st, evs.map (fun e => e.id))

/-! ### `materialize` (`state/jsonl_store.py`, lines 192-219) -/

/-- One step of the cold-rebuild scan: only `set`/`assert` records re-apply;
`retract` (and every other op) is ignored, as are malformed lines. -/
def replayStep (latest : Latest) (l : LogLine) : Latest :=
  match l with
  | LogLine.malformed => latest
  | LogLine.ev e =>
    if e.op = "set" ∨ e.op = "assert" then
      dictUpdate latest (e.triple.1, e.triple.2.1) (e.ts, e.triple.2.2)
    else latest

/-- The full-log replay that `materialize` runs when `_latest_by_sp` is
empty. -/
def rebuildLatest (log : List LogLine) : Latest :=
  log.foldl replayStep []

/-- The index `materialize` reads: the in-memory one if non-empty, else the
cold rebuild of the log. -/
def warmLatest (st : StoreSt) : Latest :=
  if st.latest = [] then rebuildLatest st.log else st.latest

/-- One step of the result-building loop of `materialize`: an index entry
whose subject is `s` (and, when `p` is given, whose predicate is `p`)
lands in `res` keyed by predicate; every other entry is skipped. -/
def matStep (s : String) (p : Option String) (res : Props)
    (entry : (String × String) × (String × String)) : Props :=
  if entry.1.1 = s ∧ (p = none ∨ p = some entry.1.2) then
    dictUpdate res entry.1.2 entry.2.2
  else res

/-- The result-building loop of `materialize`. -/
def matFold (latest : Latest) (s : String) (p : Option String) : Props :=
  latest.foldl (matStep s p) []

/-- `materialize(s, p)`: the store with its (possibly warmed) index, and the
returned predicate ↦ value map. -/
def materialize (st : StoreSt) (s : String) (p : Option String) :
    StoreSt × Props :=
  let lt := warmLatest st
  ({ st with latest := lt }, matFold lt s p)

/-! ### Card projection (`state/jsonl_store.py`, lines 223-276, 330-336) -/

/-- `_normalize_card_id`: prepend `"card:"` unless already present. -/
def normalizeCardId (cid : String) : String :=
  if "card:".data.isPrefixOf cid.data then cid else "card:" ++ cid

/-- `upsert_card(card_id, props)`: merge `props` into the stored property
map under the normalized key, persist, then append one `set` event per
given property (actor `"CardTool"`, tag `"card"`, `meta.card_id` the
*original* id).  The fresh UUIDs and the shared creation timestamp of
`Event.new` are passed in as `freshIds` and `now`. -/
def upsertCard (st : StoreSt) (cid : String) (props : Props)
    (freshIds : List String) (now : String) : StoreSt :=
  let key := normalizeCardId cid
  let cur := (dictGet? st.cards key).getD []
  let cur := dictUpdateAll cur props
  let st := { st with cards := dictUpdate st.cards key cur }
  let evs := List.zipWith
    (fun (kv : String × String) (i : String) =>
      { id := i, ts := now, actor := "CardTool", op := "set",
        triple := (key, kv.1, kv.2),
        meta := { tags := ["card"], card_id := some cid } : Event })
    props freshIds
  (appendEvents st evs).1

/-- `read_card(card_id)`: the stored property map under the normalized key,
empty when absent. -/
def readCard (st : StoreSt) (cid : String) : Props :=
  (dictGet? st.cards (normalizeCardId cid)).getD []

/-- The dict literal `{"id": cid, **props}` of `list_cards`: start from the
`id` entry, then apply the stored properties in order (a stored property
named `"id"` therefore overwrites the card key in place). -/
def cardEntry (cid : String) (props : Props) : Props :=
  dictUpdateAll [("id", cid)] props

/-- `list_cards()`: one entry per projected card, in index order. -/
def listCards (st : StoreSt) : List Props :=
  st.cards.map (fun kp => cardEntry kp.1 kp.2)

/-- `export_cards()`: a copy of the projection document. -/
def exportCards (st : StoreSt) : Cards := st.cards

/-! ### `tail` (`state/jsonl_store.py`, lines 280-328) -/

/-- The last `n` elements of a list (`lines[-n:]`, with `lines[-0:]`
degenerating to the empty window exactly as the byte scan reads nothing
when `n = 0`). -/
def lastN {α : Type} (n : Nat) (l : List α) : List α :=
  l.drop (l.length - n)

/-- Per-line decoding of the tail loop: a decodable line yields its event,
a malformed line is skipped (`except: continue`). -/
def decodeLine : LogLine → Option Event
  | LogLine.ev e => some e
  | LogLine.malformed => none

/-- `tail(n)`, modelled at line granularity: the backward block scan
collects whole lines from the end of the file until at least `n` are
gathered, keeps the last `n` non-blank lines (`lines[-n:]`), and decodes
them in file order, skipping failures.  For a log that one 4096-byte read
covers this is exactly: decode the last `n` lines, skipping failures. -/
def tailEvents (log : List LogLine) (n : Nat) : List Event :=
  (lastN n log).filterMap decodeLine

/-! ### Query engine (`state/jsonl_store.py`, lines 127-190) -/

/-- The `Query` TypedDict (`state/store.py`): absent keys are `none`. -/
structure Query where
  s : Option String := none
  p : Option String := none
  o : Option String := none
  tag : Option String := none
  since : Option String := none
  untl : Option String := none
  limit : Option Int := none
  newest_first : Option Bool := none
  deriving DecidableEq, Repr

/-- Stable insertion into a sorted list: the new element goes in front of
the first element it is `le` to, so earlier-scanned elements stay in front
of equal later ones. -/
def insSorted {α : Type} (le : α → α → Bool) (a : α) : List α → List α
  | [] => [a]
  | b :: bs => if le a b then a :: b :: bs else b :: insSorted le a bs

/-- A stable sort (observationally `list.sort`, which is also stable). -/
def stableSort {α : Type} (le : α → α → Bool) (l : List α) : List α :=
  l.foldr (insSorted le) []

/-- The final sort of `query`: `out.sort(key=lambda e: e.ts, reverse=
newest_first)` — stable, comparing the timestamp *strings*. -/
def sortByTs (newestFirst : Bool) (l : List Event) : List Event :=
  if newestFirst then stableSort (fun a b => strLe b.ts a.ts) l
  else stableSort (fun a b => strLe a.ts b.ts) l

/-- The filter cascade of the query loop on one decodable record, given the
parsed time bounds: since/until window, subject/predicate/object exact
match, tag containment. -/
def queryMatches (qs qp qo qtag : Option String)
    (since untl : Option Int) (t : Int) (e : Event) : Bool :=
  if (match since with | some b => decide (t < b) | none => false) then false
  else if (match untl with | some b => decide (b < t) | none => false) then false
  else if (match qs with
           | some v => decide (¬ e.triple.1 = v)
           | none => false) then false
  else if (match qp with
           | some v => decide (¬ e.triple.2.1 = v)
           | none => false) then false
  else if (match qo with
           | some v => decide (¬ e.triple.2.2 = v)
           | none => false) then false
  else if (match qtag with
           | some v => decide (¬ v ∈ e.meta.tags)
           | none => false) then false
  else true

/-- The scan loop of `query`: forward over the file, skipping malformed
lines, parsing each decodable record's timestamp (`none` models the
uncaught `ValueError` of `_dt_from_iso` aborting the call), collecting
matches into `out`, and breaking as soon as `len(out) >= limit` right
after a match is appended. -/
def queryLoop (qs qp qo qtag : Option String) (since untl : Option Int)
    (limit : Int) : List LogLine → List Event → Option (List Event)
  | [], out => some out
  | l :: rest, out =>
    match l with
    | LogLine.malformed => queryLoop qs qp qo qtag since untl limit rest out
    | LogLine.ev e =>
      match dt_from_iso e.ts with
      | none => none
      | some t =>
        if queryMatches qs qp qo qtag since untl t e then
          if limit ≤ (((out ++ [e]).length : Nat) : Int) then
            some (out ++ [e])
          else queryLoop qs qp qo qtag since untl limit rest (out ++ [e])
        else queryLoop qs qp qo qtag since untl limit rest out

/-- `query(q)` over the log file, with the current instant `now` passed
explicitly for `parse_relative`: defaults `limit = 100` and
`newest_first = True` are applied, the bounds are parsed leniently
(failure makes a bound inert), the forward scan collects at most `limit`
matches, and only then is the chronological sort applied. -/
def queryEvents (now : Int) (log : List LogLine) (q : Query) :
    Option (List Event) :=
  let limit := q.limit.getD 100
  let nf := q.newest_first.getD true
  let since := q.since.bind (fun s => parse_relative s now)
  let untl := q.untl.bind (fun s => parse_relative s now)
  (queryLoop q.s q.p q.o q.tag since untl limit log []).map (sortByTs nf)

/-! ### Module-global path state (`state/jsonl_store.py`, lines 17-19, 48-64)

`DEFAULT_DATA_DIR`, `EVENTS_FILE` and `CARDS_INDEX_FILE` are module-level
variables.  `JSONLStore.__init__(data_dir)` *reassigns these globals*
whenever `data_dir` is given, and every file operation of every instance
reads them; an instance object itself holds only the two in-memory
indices.  `Sys` is that module + filesystem state: the current global data
directory and, per directory, the contents of its `events.jsonl` and
`cards.index.json` (absent files read as empty, as `_ensure_dirs` creates
them empty). -/

structure Sys where
  currentDir : String
  eventsFS : String → List LogLine
  cardsFS : String → Cards

/-- The in-memory part of one `JSONLStore` instance. -/
structure Inst where
  latest : Latest
  cards : Cards
  deriving DecidableEq, Repr

/-- `JSONLStore.__init__(data_dir)`: overwrite the global directory when an
explicit one is given, ensure the files exist, start with an empty
latest-value index and the cards index loaded from the *current global*
path. -/
def initStore (sys : Sys) (dataDir : Option String) : Sys × Inst :=
  let sys :=
    match dataDir with
    | some d => { sys with currentDir := d }
    | none => sys
  (sys, { latest := [], cards := sys.cardsFS sys.currentDir })

/-- The `StoreSt` an instance's methods actually operate on: the file at the
current *global* directory plus the instance's in-memory indices. -/
def viewOf (sys : Sys) (inst : Inst) : StoreSt :=
  { log := sys.eventsFS sys.currentDir, latest := inst.latest,
    cards := inst.cards }

/-- Write back a method's resulting `StoreSt`: the log at the current global
directory and the instance fields. -/
def writeBack (sys : Sys) (st : StoreSt) : Sys × Inst :=
  ({ sys with
      eventsFS := fun d =>
        if d = sys.currentDir then st.log else sys.eventsFS d },
   { latest := st.latest, cards := st.cards })

/-- `inst.append(evs)` as run against the module globals. -/
def appendSys (sys : Sys) (inst : Inst) (evs : List Event) :
    (Sys × Inst) × List String :=
  let r := appendEvents (viewOf sys inst) evs
  (writeBack sys r.1, r.2)

/-- `inst.query(q)`: reads only the file at the current global directory. -/
def querySys (now : Int) (sys : Sys) (q : Query) : Option (List Event) :=
  queryEvents now (sys.eventsFS sys.currentDir) q

/-- `inst.tail(n)`: reads only the file at the current global directory. -/
def tailSys (sys : Sys) (n : Nat) : List Event :=
  tailEvents (sys.eventsFS sys.currentDir) n

/-- `inst.materialize(s, p)` as run against the module globals. -/
def materializeSys (sys : Sys) (inst : Inst) (s : String)
    (p : Option String) : (Sys × Inst) × Props :=
  let r := materialize (viewOf sys inst) s p
  (writeBack sys r.1, r.2)

/-! ### Specification-shaped definitions, for stating claims against the
model -/

/-- The sub-list of decodable records matching every active filter, in
forward file order (what a full scan would collect without any cap). -/
def matchedRaw (qs qp qo qtag : Option String) (since untl : Option Int) :
    List LogLine → List Event :=
  List.filterMap (fun l =>
    match l with
    | LogLine.malformed => none
    | LogLine.ev e =>
      match dt_from_iso e.ts with
      | none => none
      | some t =>
        if queryMatches qs qp qo qtag since untl t e then some e else none)

/-- `matchedRaw` with the bounds derived from a `Query` the way
`queryEvents` derives them. -/
def matchedEvents (now : Int) (log : List LogLine) (q : Query) :
    List Event :=
  matchedRaw q.s q.p q.o q.tag
    (q.since.bind (fun s => parse_relative s now))
    (q.untl.bind (fun s => parse_relative s now)) log

/-- A log line whose timestamp the query scan can parse (`_dt_from_iso`
succeeds); malformed lines are skipped before the parse and so count as
parseable. -/
def lineTsParses : LogLine → Bool
  | LogLine.ev e => (dt_from_iso e.ts).isSome
  | LogLine.malformed => true

/-- Seconds per relative-time unit, for stating `parse_relative`'s
behavior. -/
def unitSeconds (u : Char) : Nat :=
  if u = 'm' then 60
  else if u = 'h' then 3600
  else if u = 'd' then 86400
  else 604800

/-- A single well-formed `set` event. -/
def ev0 : Event :=
  { id := "id0", ts := "2025-01-01T00:00:00Z", actor := "Scribe",
    op := "set", triple := ("s0", "p0", "v0"), meta := {} }

/-- A fresh module/filesystem state: global directory at its `"data"`
default, no file written anywhere yet. -/
def sysEmpty : Sys :=
  { currentDir := "data", eventsFS := fun _ => [], cardsFS := fun _ => [] }

/-- First store, constructed with `data_dir="dir1"`. -/
def storeA : Sys × Inst := initStore sysEmpty (some "dir1")

/-- Second store, constructed afterwards with `data_dir="dir2"`. -/
def storeB : Sys × Inst := initStore storeA.1 (some "dir2")

/-- The first store appends one event *after* the second store was
constructed. -/
def afterA : (Sys × Inst) × List String := appendSys storeB.1 storeA.2 [ev0]

/-- A matching event with timestamp second `i` for the query-cutoff
demonstration. -/
def c3ev (i : Nat) : Event :=
  { id := "q" ++ toString i, ts := "2025-11-12T10:00:0" ++ toString i ++ "Z",
    actor := "TestAgent", op := "set",
    triple := ("card:time" ++ toString i, "index", toString i),
    meta := { tags := ["timetest"] } }

/-- Four matching records in increasing timestamp order. -/
def c3log : List LogLine :=
  [LogLine.ev (c3ev 1), LogLine.ev (c3ev 2), LogLine.ev (c3ev 3),
   LogLine.ev (c3ev 4)]

/-- `{"limit": 2, "newest_first": True}` (other keys absent). -/
def c3q : Query := { limit := some 2, newest_first := some true }

/-- A store holding the card `"card:x"` created by
`upsert_card("x", {"a": 1})`. -/
def c7store : StoreSt := upsertCard {} "x" [("a", "1")] ["i1"] "t1"

/-- A store holding a card whose stored properties contain a property
literally named `"id"`: `upsert_card("x", {"id": "zzz"})`. -/
def c9store : StoreSt := upsertCard {} "x" [("id", "zzz")] ["i9"] "t9"

/-- A warmed store with one unrelated latest-index entry. -/
def warmStore : StoreSt :=
  { log := [], latest := [(("a", "b"), ("t0", "w"))], cards := [] }

/-! ## Lemmas about the Python-dict association lists -/

section DictLemmas

variable {K V : Type} [DecidableEq K]

theorem dictGet?_nil (k : K) : dictGet? ([] : List (K × V)) k = none := rfl

theorem dictGet?_cons (a : K × V) (t : List (K × V)) (k : K) :
    dictGet? (a :: t) k = if a.1 = k then some a.2 else dictGet? t k := rfl

theorem dictContains_cons (a : K × V) (t : List (K × V)) (k : K) :
    dictContains (a :: t) k = if a.1 = k then true else dictContains t k :=
  rfl

/-- Replacing the entries keyed `k` does not disturb lookups of another
key. -/
theorem dictGet?_map_replace (t : List (K × V)) (k k' : K) (v : V)
    (h : ¬ k' = k) :
    dictGet? (t.map (fun kv => if kv.1 = k then (k, v) else kv)) k'
      = dictGet? t k' := by
  induction t with
  | nil => rfl
  | cons a u ih =>
    by_cases ha : a.1 = k
    · have hk : ¬ (k, v).1 = k' := fun hh => h hh.symm
      have ha' : ¬ a.1 = k' := fun hh => h (hh.symm.trans ha)
      rw [List.map_cons, if_pos ha, dictGet?_cons, dictGet?_cons, if_neg hk,
        if_neg ha', ih]
    · rw [List.map_cons, if_neg ha, dictGet?_cons, dictGet?_cons]
      by_cases ha' : a.1 = k'
      · rw [if_pos ha', if_pos ha']
      · rw [if_neg ha', if_neg ha', ih]

/-- Appending an entry keyed `k` does not disturb lookups of another key. -/
theorem dictGet?_append_singleton (m : List (K × V)) (k k' : K) (v : V)
    (h : ¬ k' = k) : dictGet? (m ++ [(k, v)]) k' = dictGet? m k' := by
  induction m with
  | nil =>
    rw [List.nil_append, dictGet?_cons, if_neg (fun hh => h hh.symm)]
  | cons a t ih =>
    rw [List.cons_append, dictGet?_cons, dictGet?_cons]
    by_cases ha : a.1 = k'
    · rw [if_pos ha, if_pos ha]
    · rw [if_neg ha, if_neg ha, ih]

theorem dictGet?_dictUpdate_self (m : List (K × V)) (k : K) (v : V) :
    dictGet? (dictUpdate m k v) k = some v := by
  unfold dictUpdate
  by_cases h : dictContains m k
  · rw [if_pos h]
    induction m with
    | nil => simp [dictContains] at h
    | cons a t ih =>
      by_cases ha : a.1 = k
      · rw [List.map_cons, if_pos ha, dictGet?_cons, if_pos rfl]
      · rw [dictContains_cons, if_neg ha] at h
        rw [List.map_cons, if_neg ha, dictGet?_cons, if_neg ha]
        exact ih h
  · rw [if_neg h]
    induction m with
    | nil => rw [List.nil_append, dictGet?_cons, if_pos rfl]
    | cons a t ih =>
      rw [dictContains_cons] at h
      by_cases ha : a.1 = k
      · rw [if_pos ha] at h; exact absurd rfl h
      · rw [if_neg ha] at h
        rw [List.cons_append, dictGet?_cons, if_neg ha]
        exact ih h

theorem dictGet?_dictUpdate_ne (m : List (K × V)) (k k' : K) (v : V)
    (h : ¬ k' = k) : dictGet? (dictUpdate m k v) k' = dictGet? m k' := by
  unfold dictUpdate
  by_cases hc : dictContains m k
  · rw [if_pos hc, dictGet?_map_replace m k k' v h]
  · rw [if_neg hc, dictGet?_append_singleton m k k' v h]

theorem dictGet?_dictPop_self (m : List (K × V)) (k : K) :
    dictGet? (dictPop m k) k = none := by
  induction m with
  | nil => rfl
  | cons a t ih =>
    by_cases ha : a.1 = k
    · have : dictPop (a :: t) k = dictPop t k := by
        unfold dictPop
        rw [List.filter_cons_of_neg]
        simp [ha]
      rw [this]; exact ih
    · have : dictPop (a :: t) k = a :: dictPop t k := by
        unfold dictPop
        rw [List.filter_cons_of_pos]
        simp [ha]
      rw [this, dictGet?_cons, if_neg ha]
      exact ih

theorem dictUpdate_ne_nil (m : List (K × V)) (k : K) (v : V) :
    ¬ dictUpdate m k v = [] := by
  unfold dictUpdate
  by_cases h : dictContains m k
  · rw [if_pos h]
    intro he
    rcases m with _ | ⟨a, t⟩
    · simp [dictContains] at h
    · simp at he
  · rw [if_neg h]
    intro he
    exact absurd (List.append_eq_nil.mp he).2 (by simp)

theorem mem_of_dictGet?_eq_some {K V : Type} [DecidableEq K]
    (m : List (K × V)) (k : K) (v : V) (h : dictGet? m k = some v) :
    (k, v) ∈ m := by
  induction m with
  | nil => exact absurd h (by simp [dictGet?_nil])
  | cons a t ih =>
    obtain ⟨a1, a2⟩ := a
    rw [dictGet?_cons] at h
    by_cases ha : a1 = k
    · rw [if_pos ha] at h
      injection h with hv
      subst ha; subst hv
      exact List.mem_cons_self _ _
    · rw [if_neg ha] at h
      exact List.mem_cons_of_mem _ (ih h)

theorem not_key_of_dictGet?_eq_none {K V : Type} [DecidableEq K]
    (m : List (K × V)) (k : K) (h : dictGet? m k = none) :
    ∀ q ∈ m, ¬ q.1 = k := by
  induction m with
  | nil => intro q hq; exact absurd hq (List.not_mem_nil q)
  | cons a t ih =>
    rw [dictGet?_cons] at h
    by_cases ha : a.1 = k
    · rw [if_pos ha] at h; exact absurd h (by simp)
    · rw [if_neg ha] at h
      intro q hq
      rcases List.mem_cons.mp hq with hq | hq
      · subst hq; exact ha
      · exact ih h q hq

theorem lastVal?_nil {K V : Type} [DecidableEq K] (k : K) :
    lastVal? ([] : List (K × V)) k = none := rfl

theorem dictGet?_dictUpdateAll {K V : Type} [DecidableEq K]
    (props : List (K × V)) (m : List (K × V)) (k : K) :
    dictGet? (dictUpdateAll m props) k
      = (lastVal? props k).or (dictGet? m k) := by
  induction props generalizing m with
  | nil => rfl
  | cons a rest ih =>
    have step : dictUpdateAll m (a :: rest)
        = dictUpdateAll (dictUpdate m a.1 a.2) rest := rfl
    rw [step, ih]
    rcases hl : lastVal? rest k with _ | w
    · have hcons : lastVal? (a :: rest) k
          = if a.1 = k then some a.2 else none := by
        rw [lastVal?, hl]
      rw [hcons]
      by_cases ha : a.1 = k
      · rw [if_pos ha, ← ha, dictGet?_dictUpdate_self]
        rfl
      · rw [if_neg ha,
          dictGet?_dictUpdate_ne m a.1 k a.2 (fun hh => ha hh.symm)]
    · have hcons : lastVal? (a :: rest) k = some w := by
        rw [lastVal?, hl]
      rw [hcons]
      rfl

theorem lastVal?_eq_none_of_not_key {K V : Type} [DecidableEq K]
    (m : List (K × V)) (k : K) (h : ∀ q ∈ m, ¬ q.1 = k) :
    lastVal? m k = none := by
  induction m with
  | nil => rfl
  | cons a t ih =>
    rw [lastVal?, ih (fun q hq => h q (List.mem_cons_of_mem _ hq)),
      if_neg (h a (List.mem_cons_self _ _))]

theorem lastVal?_eq_dictGet?_of_nodup {K V : Type} [DecidableEq K]
    (m : List (K × V)) (h : (m.map Prod.fst).Nodup) (k : K) :
    lastVal? m k = dictGet? m k := by
  induction m with
  | nil => rfl
  | cons a t ih =>
    rw [List.map_cons] at h
    have h' := List.nodup_cons.mp h
    rw [lastVal?, dictGet?_cons]
    by_cases ha : a.1 = k
    · have hnk : ∀ q ∈ t, ¬ q.1 = k := by
        intro q hq hk
        apply h'.1
        have hm : q.1 ∈ List.map Prod.fst t := List.mem_map_of_mem Prod.fst hq
        rwa [hk, ← ha] at hm
      rw [lastVal?_eq_none_of_not_key t k hnk, if_pos ha, if_pos ha]
    · rw [if_neg ha, if_neg ha, ih h'.2]
      rcases hd : dictGet? t k with _ | w <;> rfl

theorem dictContains_of_mem_keys {K V : Type} [DecidableEq K]
    (m : List (K × V)) (k : K) (h : k ∈ m.map Prod.fst) :
    dictContains m k = true := by
  induction m with
  | nil => exact absurd h (by simp)
  | cons a t ih =>
    rw [List.map_cons] at h
    rw [dictContains_cons]
    rcases List.mem_cons.mp h with hk | hk
    · rw [if_pos hk.symm]
    · by_cases ha : a.1 = k
      · rw [if_pos ha]
      · rw [if_neg ha]
        exact ih hk

theorem nodup_keys_dictUpdate {K V : Type} [DecidableEq K]
    (m : List (K × V)) (k : K) (v : V)
    (h : (m.map Prod.fst).Nodup) :
    ((dictUpdate m k v).map Prod.fst).Nodup := by
  unfold dictUpdate
  by_cases hc : dictContains m k
  · rw [if_pos hc]
    have heq : (m.map (fun kv => if kv.1 = k then (k, v) else kv)).map
        Prod.fst = m.map Prod.fst := by
      rw [List.map_map]
      apply List.map_congr_left
      intro kv _
      by_cases hkv : kv.1 = k
      · simp [hkv]
      · simp [hkv]
    rw [heq]; exact h
  · rw [if_neg hc, List.map_append]
    have hk : k ∉ m.map Prod.fst := fun hm =>
      hc (dictContains_of_mem_keys m k hm)
    rw [List.nodup_append]
    refine ⟨h, List.nodup_singleton (k, v).1, ?_⟩
    intro a ha hb
    rw [List.map_singleton, List.mem_singleton] at hb
    subst hb
    exact hk ha

theorem nodup_keys_dictPop {K V : Type} [DecidableEq K]
    (m : List (K × V)) (k : K) (h : (m.map Prod.fst).Nodup) :
    ((dictPop m k).map Prod.fst).Nodup :=
  List.Nodup.sublist (List.Sublist.map Prod.fst (List.filter_sublist m)) h

end DictLemmas

/-! ## Lemmas about the store operations -/

theorem matStep_none_eq (s : String) (res : Props)
    (q : (String × String) × (String × String)) :
    matStep s none res q
      = if q.1.1 = s then dictUpdate res q.1.2 q.2.2 else res := by
  unfold matStep
  by_cases hq : q.1.1 = s
  · rw [if_pos hq, if_pos ⟨hq, Or.inl rfl⟩]
  · rw [if_neg hq, if_neg (fun hh => hq hh.1)]

theorem matFold_go_not_key (s p : String) (L : Latest)
    (h : ∀ q ∈ L, ¬ q.1 = (s, p)) :
    ∀ acc : Props,
      dictGet? (L.foldl (matStep s none) acc) p = dictGet? acc p := by
  induction L with
  | nil => intro acc; rfl
  | cons q t ih =>
    intro acc
    rw [List.foldl_cons, ih (fun r hr => h r (List.mem_cons_of_mem _ hr)),
      matStep_none_eq]
    by_cases hq : q.1.1 = s
    · rw [if_pos hq]
      have hp : ¬ p = q.1.2 := by
        intro hp
        exact h q (List.mem_cons_self _ _) (Prod.ext hq hp.symm)
      rw [dictGet?_dictUpdate_ne acc q.1.2 p q.2.2 hp]
    · rw [if_neg hq]

theorem matFold_mem_nodup (s p : String) (L : Latest)
    (hnd : (L.map Prod.fst).Nodup) (v : String × String)
    (hmem : ((s, p), v) ∈ L) :
    ∀ acc : Props,
      dictGet? (L.foldl (matStep s none) acc) p = some v.2 := by
  induction L with
  | nil => cases hmem
  | cons q t ih =>
    intro acc
    rw [List.map_cons] at hnd
    have hnd' := List.nodup_cons.mp hnd
    rcases List.mem_cons.mp hmem with hq | hq
    · rw [List.foldl_cons]
      have hstep : matStep s none acc q = dictUpdate acc p v.2 := by
        rw [← hq, matStep_none_eq, if_pos rfl]
      rw [hstep]
      have hnk : ∀ r ∈ t, ¬ r.1 = (s, p) := by
        intro r hr hrk
        apply hnd'.1
        have hm : r.1 ∈ List.map Prod.fst t := List.mem_map_of_mem Prod.fst hr
        rw [hrk] at hm
        rw [← hq]
        exact hm
      rw [matFold_go_not_key s p t hnk (dictUpdate acc p v.2),
        dictGet?_dictUpdate_self]
    · rw [List.foldl_cons]
      exact ih hnd'.2 hq (matStep s none acc q)

/-- Under unique index keys, the `materialize` result at predicate `p` is
exactly the indexed `(ts, value)` entry's value for `(s, p)`. -/
theorem dictGet?_matFold_of_nodup (L : Latest)
    (h : (L.map Prod.fst).Nodup) (s p : String) :
    dictGet? (matFold L s none) p
      = (dictGet? L (s, p)).map (fun tsv => tsv.2) := by
  rcases hd : dictGet? L (s, p) with _ | v
  · have hnk := not_key_of_dictGet?_eq_none L (s, p) hd
    unfold matFold
    rw [matFold_go_not_key s p L hnk []]
    rfl
  · have hmem := mem_of_dictGet?_eq_some L (s, p) v hd
    unfold matFold
    rw [matFold_mem_nodup s p L h v hmem []]
    rfl

theorem appendStep_log (st : StoreSt) (e : Event) :
    (appendStep st e).log = st.log ++ [LogLine.ev e] := by
  unfold appendStep
  split_ifs <;> rfl

theorem appendStep_cards (st : StoreSt) (e : Event) :
    (appendStep st e).cards = st.cards := by
  unfold appendStep
  split_ifs <;> rfl

theorem appendStep_set (st : StoreSt) (e : Event)
    (h : e.op = "set" ∨ e.op = "assert") :
    appendStep st e =
      { st with log := st.log ++ [LogLine.ev e],
                latest := dictUpdate st.latest (e.triple.1, e.triple.2.1)
                  (e.ts, e.triple.2.2) } := by
  unfold appendStep
  rw [if_pos h]

theorem appendStep_retract (st : StoreSt) (e : Event)
    (hs : ¬ (e.op = "set" ∨ e.op = "assert")) (hr : e.op = "retract") :
    appendStep st e =
      { st with log := st.log ++ [LogLine.ev e],
                latest := dictPop st.latest (e.triple.1, e.triple.2.1) } := by
  unfold appendStep
  rw [if_neg hs, if_pos hr]

theorem appendStep_other (st : StoreSt) (e : Event)
    (hs : ¬ (e.op = "set" ∨ e.op = "assert")) (hr : ¬ e.op = "retract") :
    appendStep st e = { st with log := st.log ++ [LogLine.ev e] } := by
  unfold appendStep
  rw [if_neg hs, if_neg hr]

theorem foldl_appendStep_log (evs : List Event) :
    ∀ st : StoreSt,
      (evs.foldl appendStep st).log = st.log ++ evs.map LogLine.ev := by
  induction evs with
  | nil => intro st; rw [List.foldl_nil, List.map_nil, List.append_nil]
  | cons e t ih =>
    intro st
    rw [List.foldl_cons, ih, appendStep_log, List.map_cons,
      List.append_assoc, List.singleton_append]

theorem appendEvents_log (st : StoreSt) (evs : List Event) :
    (appendEvents st evs).1.log = st.log ++ evs.map LogLine.ev :=
  foldl_appendStep_log evs st

theorem foldl_appendStep_cards (evs : List Event) :
    ∀ st : StoreSt, (evs.foldl appendStep st).cards = st.cards := by
  induction evs with
  | nil => intro st; rfl
  | cons e t ih =>
    intro st
    rw [List.foldl_cons, ih, appendStep_cards]

theorem appendEvents_cards (st : StoreSt) (evs : List Event) :
    (appendEvents st evs).1.cards = st.cards :=
  foldl_appendStep_cards evs st

theorem replayStep_set (latest : Latest) (e : Event)
    (h : e.op = "set" ∨ e.op = "assert") :
    replayStep latest (LogLine.ev e)
      = dictUpdate latest (e.triple.1, e.triple.2.1)
          (e.ts, e.triple.2.2) := by
  have hr : replayStep latest (LogLine.ev e)
      = if e.op = "set" ∨ e.op = "assert" then
          dictUpdate latest (e.triple.1, e.triple.2.1) (e.ts, e.triple.2.2)
        else latest := rfl
  rw [hr, if_pos h]

theorem replayStep_other (latest : Latest) (e : Event)
    (h : ¬ (e.op = "set" ∨ e.op = "assert")) :
    replayStep latest (LogLine.ev e) = latest := by
  have hr : replayStep latest (LogLine.ev e)
      = if e.op = "set" ∨ e.op = "assert" then
          dictUpdate latest (e.triple.1, e.triple.2.1) (e.ts, e.triple.2.2)
        else latest := rfl
  rw [hr, if_neg h]

theorem rebuildLatest_append (l1 l2 : List LogLine) :
    rebuildLatest (l1 ++ l2) = l2.foldl replayStep (rebuildLatest l1) := by
  unfold rebuildLatest
  rw [List.foldl_append]

theorem nodup_keys_replay (log : List LogLine) :
    ∀ acc : Latest, (acc.map Prod.fst).Nodup →
      ((log.foldl replayStep acc).map Prod.fst).Nodup := by
  induction log with
  | nil => intro acc h; exact h
  | cons l t ih =>
    intro acc h
    rw [List.foldl_cons]
    apply ih
    cases l with
    | malformed => exact h
    | ev e =>
      by_cases hop : e.op = "set" ∨ e.op = "assert"
      · rw [replayStep_set acc e hop]
        exact nodup_keys_dictUpdate _ _ _ h
      · rw [replayStep_other acc e hop]
        exact h

theorem nodup_keys_rebuildLatest (log : List LogLine) :
    ((rebuildLatest log).map Prod.fst).Nodup :=
  nodup_keys_replay log [] (by simp)

theorem warmLatest_of_ne_nil (st : StoreSt) (h : ¬ st.latest = []) :
    warmLatest st = st.latest := by
  unfold warmLatest
  rw [if_neg h]

theorem materialize_res (st : StoreSt) (s : String) (p : Option String) :
    (materialize st s p).2 = matFold (warmLatest st) s p := rfl

theorem getLast?_cons_of_ne_nil {α : Type} (a : α) (l : List α)
    (h : ¬ l = []) : (a :: l).getLast? = l.getLast? := by
  cases l with
  | nil => exact absurd rfl h
  | cons b t => exact List.getLast?_cons_cons

/-- Evaluation of `parse_relative` on `"-" ++ digits ++ unit` for an
alphabetic non-digit unit character that is neither `Z` nor `T`: the
string takes the relative branch, the digits are collected as the
magnitude, and the lower-cased unit selects the offset. -/
theorem parse_relative_dash_digits_unit (now : Int) (ds : List Char)
    (u : Char) (hne : ¬ ds = []) (hds : ∀ c ∈ ds, c.isDigit = true)
    (hZ : ¬ u = 'Z') (hT : ¬ u = 'T') (hud : ¬ u.isDigit = true)
    (hua : u.isAlpha = true) (hul : u.toLower = u) :
    parse_relative ⟨'-' :: (ds ++ [u])⟩ now
      = (if u = 'm' then some (now - ((digitsToNat ds * 60 : Nat) : Int))
         else if u = 'h' then
           some (now - ((digitsToNat ds * 3600 : Nat) : Int))
         else if u = 'd' then
           some (now - ((digitsToNat ds * 86400 : Nat) : Int))
         else if u = 'w' then
           some (now - ((digitsToNat ds * 604800 : Nat) : Int))
         else none) := by
  show parse_relative_data ('-' :: (ds ++ [u])) now = _
  have h1 : ¬ ('-' :: (ds ++ [u])) = ([] : List Char) := by simp
  have hlast : ('-' :: (ds ++ [u])).getLast? = some u :=
    List.getLast?_concat ('-' :: ds)
  have hTm : ¬ 'T' ∈ '-' :: (ds ++ [u]) := by
    intro hmem
    rcases List.mem_cons.mp hmem with hc | hc
    · exact absurd hc (by decide)
    · rcases List.mem_append.mp hc with hc | hc
      · exact absurd (hds 'T' hc) (by decide)
      · rw [List.mem_singleton] at hc
        exact hT hc.symm
  have h2 : ¬ (('-' :: (ds ++ [u])).getLast? = some 'Z'
      ∨ 'T' ∈ '-' :: (ds ++ [u])) := by
    intro hor
    rcases hor with hor | hor
    · rw [hlast] at hor
      injection hor with hor
      exact hZ hor
    · exact hTm hor
  have h3 : ¬ ¬ ('-' :: (ds ++ [u])).head? = some '-' := fun hh => hh rfl
  have hnum : List.filter Char.isDigit ('-' :: (ds ++ [u])) = ds := by
    rw [List.filter_cons_of_neg (by decide), List.filter_append,
      List.filter_eq_self.mpr hds, List.filter_cons_of_neg hud,
      List.filter_nil, List.append_nil]
  unfold parse_relative_data
  rw [if_neg h1, if_neg h2, if_neg h3]
  simp only [hnum, hlast, hua, if_true, hul]
  rw [if_neg hne]

/-- Evaluation of `parse_relative` on `"-" ++ digits` (no unit suffix):
the unit silently defaults to minutes. -/
theorem parse_relative_dash_digits_only (now : Int) (ds : List Char)
    (hne : ¬ ds = []) (hds : ∀ c ∈ ds, c.isDigit = true)
    (hlastd : ∀ c, ds.getLast? = some c → c.isAlpha = false) :
    parse_relative ⟨'-' :: ds⟩ now
      = some (now - ((digitsToNat ds * 60 : Nat) : Int)) := by
  show parse_relative_data ('-' :: ds) now = _
  have h1 : ¬ ('-' :: ds) = ([] : List Char) := by simp
  rcases hgd : ds.getLast? with _ | c
  · rw [List.getLast?_eq_none_iff] at hgd
    exact absurd hgd hne
  have hcd : c.isDigit = true := hds c (List.mem_of_getLast?_eq_some hgd)
  have hlast : ('-' :: ds).getLast? = some c := by
    rw [getLast?_cons_of_ne_nil '-' ds hne, hgd]
  have hTm : ¬ 'T' ∈ '-' :: ds := by
    intro hmem
    rcases List.mem_cons.mp hmem with hc | hc
    · exact absurd hc (by decide)
    · exact absurd (hds 'T' hc) (by decide)
  have h2 : ¬ (('-' :: ds).getLast? = some 'Z' ∨ 'T' ∈ '-' :: ds) := by
    intro hor
    rcases hor with hor | hor
    · rw [hlast] at hor
      injection hor with hor
      subst hor
      exact absurd hcd (by decide)
    · exact hTm hor
  have h3 : ¬ ¬ ('-' :: ds).head? = some '-' := fun hh => hh rfl
  have hnum : List.filter Char.isDigit ('-' :: ds) = ds := by
    rw [List.filter_cons_of_neg (by decide), List.filter_eq_self.mpr hds]
  unfold parse_relative_data
  rw [if_neg h1, if_neg h2, if_neg h3]
  simp only [hnum, hlast, hlastd c hgd, if_false, Bool.false_eq_true]
  rw [if_neg hne]
  exact if_pos trivial

/-- The scan loop of `query` collects, in file order, exactly the first
`limit − |out|` still-missing matches and stops there: it returns the
accumulator extended by that prefix of the full match list. -/
theorem queryLoop_eq_take (qs qp qo qtag : Option String)
    (since untl : Option Int) (limit : Int) (log : List LogLine) :
    (∀ e : Event, LogLine.ev e ∈ log → (dt_from_iso e.ts).isSome = true) →
    ∀ out : List Event, ((out.length : Nat) : Int) < limit →
      queryLoop qs qp qo qtag since untl limit log out
        = some (out ++ (matchedRaw qs qp qo qtag since untl log).take
            (limit.toNat - out.length)) := by
  induction log with
  | nil =>
    intro _ out _
    show some out = _
    rw [show matchedRaw qs qp qo qtag since untl [] = [] from rfl,
      List.take_nil, List.append_nil]
  | cons l rest ih =>
    intro hts out hlt
    cases l with
    | malformed =>
      have h1 : queryLoop qs qp qo qtag since untl limit
          (LogLine.malformed :: rest) out
          = queryLoop qs qp qo qtag since untl limit rest out := rfl
      have h2 : matchedRaw qs qp qo qtag since untl
          (LogLine.malformed :: rest)
          = matchedRaw qs qp qo qtag since untl rest := rfl
      rw [h1, h2]
      exact ih (fun e' he' => hts e' (List.mem_cons_of_mem _ he')) out hlt
    | ev e =>
      have hsome := hts e (List.mem_cons_self _ _)
      rcases ht : dt_from_iso e.ts with _ | t
      · rw [ht] at hsome
        simp at hsome
      rcases hq : queryMatches qs qp qo qtag since untl t e with _ | _
      · have hstep : queryLoop qs qp qo qtag since untl limit
            (LogLine.ev e :: rest) out
            = queryLoop qs qp qo qtag since untl limit rest out := by
          simp only [queryLoop, ht, hq, Bool.false_eq_true, if_false]
        have hm : matchedRaw qs qp qo qtag since untl
            (LogLine.ev e :: rest)
            = matchedRaw qs qp qo qtag since untl rest := by
          simp only [matchedRaw, List.filterMap_cons, ht, hq,
            Bool.false_eq_true, if_false]
        rw [hstep, hm]
        exact ih (fun e' he' => hts e' (List.mem_cons_of_mem _ he')) out
          hlt
      · have hstep : queryLoop qs qp qo qtag since untl limit
            (LogLine.ev e :: rest) out
            = (if limit ≤ (((out ++ [e]).length : Nat) : Int) then
                 some (out ++ [e])
               else queryLoop qs qp qo qtag since untl limit rest
                 (out ++ [e])) := by
          simp only [queryLoop, ht, hq, if_true]
        have hm : matchedRaw qs qp qo qtag since untl
            (LogLine.ev e :: rest)
            = e :: matchedRaw qs qp qo qtag since untl rest := by
          simp only [matchedRaw, List.filterMap_cons, ht, hq, if_true]
        rw [hstep, hm]
        have hlen : (out ++ [e]).length = out.length + 1 := by simp
        by_cases hbreak : limit ≤ (((out ++ [e]).length : Nat) : Int)
        · rw [if_pos hbreak]
          rw [hlen] at hbreak
          have h1 : limit.toNat - out.length = 1 := by omega
          rw [h1, List.take_succ_cons, List.take_zero]
        · rw [if_neg hbreak]
          have hlt' : (((out ++ [e]).length : Nat) : Int) < limit := by
            omega
          rw [ih (fun e' he' => hts e' (List.mem_cons_of_mem _ he'))
            (out ++ [e]) hlt']
          congr 1
          obtain ⟨k, hk⟩ : ∃ k, limit.toNat - out.length = k + 1 :=
            ⟨limit.toNat - out.length - 1, by omega⟩
          have hk2 : limit.toNat - (out ++ [e]).length = k := by
            rw [hlen]; omega
          rw [hk, hk2, List.take_succ_cons, List.append_assoc,
            List.singleton_append]

/-! ## The claims -/

/-- C1: the spec claims operations performed on one store are never
observable through a second store with a distinct data directory.  The
code violates this: constructing the second store reassigns the
module-global path variables, so a subsequent `append` through the *first*
store writes into the *second* store's directory.  Concretely, after
`A = JSONLStore("dir1")`, `B = JSONLStore("dir2")`, `A.append([ev0])`:
the event lands in `dir2/events.jsonl` (and `dir1`'s log stays empty), and
`B.query`, `B.tail` and `B.materialize` all return the event that was
appended only through `A`. -/
theorem c1_second_store_observes_first_stores_append :
    afterA.1.1.eventsFS "dir2" = [LogLine.ev ev0] ∧
    afterA.1.1.eventsFS "dir1" = [] ∧
    querySys 0 afterA.1.1 {} = some [ev0] ∧
    tailSys afterA.1.1 50 = [ev0] ∧
    (materializeSys afterA.1.1 storeB.2 "s0" none).2 = [("p0", "v0")] := by
  decide

/-- C2: retract semantics are asymmetric.  Appending `Set(s,p,v)` then
`Retract(s,p,v)` pops the `(s,p)` entry from the latest-value index, so
on a store whose index is still warm (non-empty) `materialize(s)` has no
key `p`; but a cold `materialize` over the same log rebuilds the index by
replaying only `set`/`assert` records — the retract is ignored — so it
maps `p` back to `v`. -/
theorem c2_retract_asymmetry_append_vs_cold_rebuild
    (st st' : StoreSt) (hnd : (st.latest.map Prod.fst).Nodup)
    (i1 i2 ts1 ts2 a1 a2 s p v : String) (m1 m2 : Meta)
    (hst' : st' = (appendEvents st
      [mkEv i1 ts1 a1 "set" (s, p, v) m1,
       mkEv i2 ts2 a2 "retract" (s, p, v) m2]).1)
    (hwarm : ¬ st'.latest = []) :
    dictGet? (materialize st' s none).2 p = none ∧
    dictGet? (materialize
      { log := st'.log, latest := [], cards := st'.cards } s none).2 p
      = some v := by
  subst hst'
  have hL : ((appendEvents st
      [mkEv i1 ts1 a1 "set" (s, p, v) m1,
       mkEv i2 ts2 a2 "retract" (s, p, v) m2]).1).latest
      = dictPop (dictUpdate st.latest (s, p) (ts1, v)) (s, p) := rfl
  constructor
  · rw [materialize_res, warmLatest_of_ne_nil _ hwarm, hL,
      dictGet?_matFold_of_nodup _
        (nodup_keys_dictPop _ _ (nodup_keys_dictUpdate _ _ _ hnd)) s p,
      dictGet?_dictPop_self]
    rfl
  · rw [materialize_res]
    have hw : warmLatest
        { log := ((appendEvents st
            [mkEv i1 ts1 a1 "set" (s, p, v) m1,
             mkEv i2 ts2 a2 "retract" (s, p, v) m2]).1).log,
          latest := [],
          cards := ((appendEvents st
            [mkEv i1 ts1 a1 "set" (s, p, v) m1,
             mkEv i2 ts2 a2 "retract" (s, p, v) m2]).1).cards }
        = rebuildLatest
            ((st.log ++ [LogLine.ev (mkEv i1 ts1 a1 "set" (s, p, v) m1)])
              ++ [LogLine.ev (mkEv i2 ts2 a2 "retract" (s, p, v) m2)]) :=
      rfl
    rw [hw, List.append_assoc, rebuildLatest_append, List.singleton_append,
      List.foldl_cons, List.foldl_cons, List.foldl_nil,
      replayStep_set (rebuildLatest st.log)
        (mkEv i1 ts1 a1 "set" (s, p, v) m1) (Or.inl rfl),
      replayStep_other _ (mkEv i2 ts2 a2 "retract" (s, p, v) m2)
        (by simp [mkEv])]
    simp only [mkEv]
    rw [dictGet?_matFold_of_nodup _
        (nodup_keys_dictUpdate _ _ _ (nodup_keys_rebuildLatest st.log)) s p,
      dictGet?_dictUpdate_self]
    rfl

/-- Closed instance of C2: on a warmed store with one unrelated index
entry, set-then-retract on `("s","p")` leaves `materialize "s"` without
key `"p"`, while the cold rebuild over the same log maps `"p"` to
`"v"`. -/
theorem c2_witness :
    dictGet? (materialize ((appendEvents warmStore
      [mkEv "i1" "t1" "A" "set" ("s", "p", "v") {},
       mkEv "i2" "t2" "A" "retract" ("s", "p", "v") {}]).1) "s" none).2 "p"
      = none ∧
    dictGet? (materialize
      { log := ((appendEvents warmStore
          [mkEv "i1" "t1" "A" "set" ("s", "p", "v") {},
           mkEv "i2" "t2" "A" "retract" ("s", "p", "v") {}]).1).log,
        latest := [],
        cards := ((appendEvents warmStore
          [mkEv "i1" "t1" "A" "set" ("s", "p", "v") {},
           mkEv "i2" "t2" "A" "retract" ("s", "p", "v") {}]).1).cards } "s"
      none).2 "p" = some "v" :=
  c2_retract_asymmetry_append_vs_cold_rebuild warmStore _ (by decide)
    "i1" "i2" "t1" "t2" "A" "A" "s" "p" "v" {} {} rfl (by decide)

/-- C6: last-write-wins — appending `Set(s,p,v1)` then `Set(s,p,v2)` and
materializing `s` yields a map sending `p` to `v2`, the later value
replacing the earlier one. -/
theorem c6_last_write_wins
    (st : StoreSt) (hnd : (st.latest.map Prod.fst).Nodup)
    (i1 i2 ts1 ts2 a1 a2 s p v1 v2 : String) (m1 m2 : Meta) :
    dictGet? (materialize ((appendEvents st
      [mkEv i1 ts1 a1 "set" (s, p, v1) m1,
       mkEv i2 ts2 a2 "set" (s, p, v2) m2]).1) s none).2 p = some v2 := by
  have hL : ((appendEvents st
      [mkEv i1 ts1 a1 "set" (s, p, v1) m1,
       mkEv i2 ts2 a2 "set" (s, p, v2) m2]).1).latest
      = dictUpdate (dictUpdate st.latest (s, p) (ts1, v1)) (s, p)
          (ts2, v2) := rfl
  have hne : ¬ ((appendEvents st
      [mkEv i1 ts1 a1 "set" (s, p, v1) m1,
       mkEv i2 ts2 a2 "set" (s, p, v2) m2]).1).latest = [] := by
    rw [hL]; exact dictUpdate_ne_nil _ _ _
  rw [materialize_res, warmLatest_of_ne_nil _ hne, hL,
    dictGet?_matFold_of_nodup _
      (nodup_keys_dictUpdate _ _ _ (nodup_keys_dictUpdate _ _ _ hnd)) s p,
    dictGet?_dictUpdate_self]
  rfl

/-- Closed instance of C6 on the empty store. -/
theorem c6_witness :
    dictGet? (materialize ((appendEvents {}
      [mkEv "i1" "t1" "A" "set" ("s", "p", "v1") {},
       mkEv "i2" "t2" "A" "set" ("s", "p", "v2") {}]).1) "s" none).2 "p"
      = some "v2" :=
  c6_last_write_wins {} (by decide) "i1" "i2" "t1" "t2" "A" "A"
    "s" "p" "v1" "v2" {} {}

/-- C7: `upsert_card` is a true merge — for a property `k` named in the
call, `read_card` afterwards returns the new value; for a property not
named in the call, it returns whatever `read_card` returned before. -/
theorem c7_upsert_card_true_merge
    (st : StoreSt) (cid : String) (props : Props)
    (freshIds : List String) (now : String)
    (hnd : (props.map Prod.fst).Nodup) (k : String) :
    dictGet? (readCard (upsertCard st cid props freshIds now) cid) k
      = (dictGet? props k).or (dictGet? (readCard st cid) k) := by
  have hcards : (upsertCard st cid props freshIds now).cards
      = dictUpdate st.cards (normalizeCardId cid)
          (dictUpdateAll
            ((dictGet? st.cards (normalizeCardId cid)).getD []) props) := by
    simp only [upsertCard, appendEvents_cards]
  unfold readCard
  rw [hcards, dictGet?_dictUpdate_self, Option.getD_some,
    dictGet?_dictUpdateAll, lastVal?_eq_dictGet?_of_nodup props hnd k]

/-- Closed instance of C7, the spec's own example:
`upsert_card("x", {"a": 1})` then `upsert_card("x", {"b": 2})` gives
`read_card("x")` with both `a = 1` (retained) and `b = 2` (added). -/
theorem c7_witness :
    dictGet? (readCard (upsertCard c7store "x" [("b", "2")] ["i2"] "t2")
      "x") "a" = some "1" ∧
    dictGet? (readCard (upsertCard c7store "x" [("b", "2")] ["i2"] "t2")
      "x") "b" = some "2" :=
  ⟨(c7_upsert_card_true_merge c7store "x" [("b", "2")] ["i2"] "t2"
      (by decide) "a").trans (by decide),
   (c7_upsert_card_true_merge c7store "x" [("b", "2")] ["i2"] "t2"
      (by decide) "b").trans (by decide)⟩

/-- C8: card id normalization — for an id `x` not already starting with
`"card:"`, `read_card(x)` and `read_card("card:" + x)` agree, and
`upsert_card` under either form produces the same stored card
projection. -/
theorem c8_card_id_normalization
    (st : StoreSt) (x : String) (props : Props)
    (freshIds : List String) (now : String)
    (h : ¬ "card:".data.isPrefixOf x.data = true) :
    readCard st x = readCard st ("card:" ++ x) ∧
    (upsertCard st x props freshIds now).cards
      = (upsertCard st ("card:" ++ x) props freshIds now).cards := by
  have hx : normalizeCardId x = "card:" ++ x := by
    unfold normalizeCardId
    rw [if_neg h]
  have hpre : "card:".data.isPrefixOf ("card:" ++ x).data = true := by
    rw [String.data_append]
    exact List.isPrefixOf_iff_prefix.mpr (List.prefix_append _ _)
  have hcx : normalizeCardId ("card:" ++ x) = "card:" ++ x := by
    unfold normalizeCardId
    rw [if_pos hpre]
  constructor
  · unfold readCard
    rw [hx, hcx]
  · simp only [upsertCard, appendEvents_cards]
    rw [hx, hcx]

/-- Closed instance of C8 on a store holding `"card:x"`. -/
theorem c8_witness :
    readCard c7store "x" = readCard c7store ("card:" ++ "x") ∧
    (upsertCard c7store "x" [("z", "9")] ["i3"] "t3").cards
      = (upsertCard c7store ("card:" ++ "x") [("z", "9")] ["i3"]
          "t3").cards :=
  c8_card_id_normalization c7store "x" [("z", "9")] ["i3"] "t3" (by decide)

/-- C10: an event whose op is none of `set`/`assert`/`retract` is still
written to the log and its id is returned (ids are returned in call order
for every batch), while the latest-value index is left exactly unchanged,
so `materialize` results are unaffected by it. -/
theorem c10_unknown_op_frame
    (st : StoreSt) (e : Event)
    (hs : ¬ e.op = "set") (ha : ¬ e.op = "assert")
    (hr : ¬ e.op = "retract") :
    (appendEvents st [e]).1.log = st.log ++ [LogLine.ev e] ∧
    (appendEvents st [e]).2 = [e.id] ∧
    (∀ evs : List Event,
      (appendEvents st evs).2 = evs.map (fun ev => ev.id)) ∧
    (appendEvents st [e]).1.latest = st.latest ∧
    (∀ (s : String) (pq : Option String),
      (materialize ((appendEvents st [e]).1) s pq).2
        = (materialize st s pq).2) := by
  have hso : ¬ (e.op = "set" ∨ e.op = "assert") := fun hh => hh.elim hs ha
  have hstep : (appendEvents st [e]).1
      = { st with log := st.log ++ [LogLine.ev e] } := by
    show appendStep st e = _
    rw [appendStep_other st e hso hr]
  refine ⟨?_, rfl, fun evs => rfl, ?_, ?_⟩
  · rw [hstep]
  · rw [hstep]
  · intro s pq
    rw [hstep, materialize_res, materialize_res]
    have hwl : warmLatest { st with log := st.log ++ [LogLine.ev e] }
        = warmLatest st := by
      unfold warmLatest
      by_cases hl : st.latest = []
      · rw [if_pos hl, if_pos hl, rebuildLatest_append, List.foldl_cons,
          List.foldl_nil, replayStep_other _ e hso]
      · rw [if_neg hl, if_neg hl]
    rw [hwl]

/-- Closed instance of C10 with the unrecognized op `"note"` on a warmed
store. -/
theorem c10_witness :
    (appendEvents warmStore
      [mkEv "i" "t" "A" "note" ("s", "p", "v") {}]).1.log
      = warmStore.log ++ [LogLine.ev (mkEv "i" "t" "A" "note"
          ("s", "p", "v") {})] ∧
    (appendEvents warmStore
      [mkEv "i" "t" "A" "note" ("s", "p", "v") {}]).2 = ["i"] ∧
    (appendEvents warmStore
      [mkEv "i" "t" "A" "note" ("s", "p", "v") {}]).1.latest
      = warmStore.latest ∧
    (materialize ((appendEvents warmStore
      [mkEv "i" "t" "A" "note" ("s", "p", "v") {}]).1) "s" none).2
      = (materialize warmStore "s" none).2 :=
  ⟨(c10_unknown_op_frame warmStore (mkEv "i" "t" "A" "note" ("s", "p", "v")
      {}) (by decide) (by decide) (by decide)).1,
   (c10_unknown_op_frame warmStore (mkEv "i" "t" "A" "note" ("s", "p", "v")
      {}) (by decide) (by decide) (by decide)).2.1,
   (c10_unknown_op_frame warmStore (mkEv "i" "t" "A" "note" ("s", "p", "v")
      {}) (by decide) (by decide) (by decide)).2.2.2.1,
   (c10_unknown_op_frame warmStore (mkEv "i" "t" "A" "note" ("s", "p", "v")
      {}) (by decide) (by decide) (by decide)).2.2.2.2 "s" none⟩

/-- C9 counterexample: the claim says every projected card gets a
`list_cards` entry whose `"id"` field equals the card's normalized key.
After `upsert_card("x", {"id": "zzz"})` the store projects the card
`"card:x"`, but `{"id": cid, **props}` lets the stored property named
`"id"` overwrite the key — no entry of `list_cards` has `"id" = "card:x"`
(the only entry carries `"id" = "zzz"`). -/
theorem c9_counterexample :
    ¬ (∀ kp ∈ c9store.cards, ∃ eprops ∈ listCards c9store,
        dictGet? eprops "id" = some kp.1) := by
  decide

/-- C9 (amended): `list_cards` returns exactly one entry per projected
card, in index order; an entry carries the card's stored properties
unchanged (for every key other than `"id"`), and its `"id"` field is the
card's key *unless* the stored properties themselves contain a property
named `"id"`, which then overwrites it. -/
theorem c9_list_cards_entries (st : StoreSt) (key : String) (props : Props)
    (hmem : (key, props) ∈ st.cards)
    (hnd : (props.map Prod.fst).Nodup) :
    (listCards st).length = st.cards.length ∧
    cardEntry key props ∈ listCards st ∧
    dictGet? (cardEntry key props) "id"
      = (dictGet? props "id").or (some key) ∧
    (∀ k, ¬ k = "id" →
      dictGet? (cardEntry key props) k = dictGet? props k) := by
  have hid : dictGet? [("id", key)] "id" = some key := by
    rw [dictGet?_cons, if_pos rfl]
  refine ⟨List.length_map _ _, ?_, ?_, ?_⟩
  · exact List.mem_map_of_mem (fun kp => cardEntry kp.1 kp.2) hmem
  · unfold cardEntry
    rw [dictGet?_dictUpdateAll, lastVal?_eq_dictGet?_of_nodup props hnd,
      hid]
  · intro k hk
    have hnone : dictGet? [("id", key)] k = none := by
      rw [dictGet?_cons, if_neg (fun hh => hk hh.symm)]
      rfl
    unfold cardEntry
    rw [dictGet?_dictUpdateAll, lastVal?_eq_dictGet?_of_nodup props hnd,
      hnone, Option.or_none]

/-- Closed instance of the amended C9 on the store projecting
`("card:x", {"id": "zzz"})`. -/
theorem c9_witness :
    (listCards c9store).length = c9store.cards.length ∧
    cardEntry "card:x" [("id", "zzz")] ∈ listCards c9store ∧
    dictGet? (cardEntry "card:x" [("id", "zzz")]) "id"
      = (dictGet? [("id", "zzz")] "id").or (some "card:x") ∧
    dictGet? (cardEntry "card:x" [("id", "zzz")]) "name"
      = dictGet? [("id", "zzz")] "name" :=
  ⟨(c9_list_cards_entries c9store "card:x" [("id", "zzz")] (by decide)
      (by decide)).1,
   (c9_list_cards_entries c9store "card:x" [("id", "zzz")] (by decide)
      (by decide)).2.1,
   (c9_list_cards_entries c9store "card:x" [("id", "zzz")] (by decide)
      (by decide)).2.2.1,
   (c9_list_cards_entries c9store "card:x" [("id", "zzz")] (by decide)
      (by decide)).2.2.2 "name" (by decide)⟩

/-- C5 counterexample: two concrete inputs refute the claim.  `"-10"` has
a leading sign and digits but no unit letter, so it is not of the claimed
form sign-then-digits-then-unit with unit in `{m,h,d,w}` — malformed per
the claim, which demands "no bound" — yet the code parses it, the unit
silently defaulting to minutes (`now − 600 s`).  And `"2025-11-12"` is a
parsable absolute form (`fromisoformat` accepts a plain date), yet
because it neither ends in `'Z'` nor contains `'T'` the code never tries
the absolute branch and returns no bound instead of the parsed
instant. -/
theorem c5_counterexample :
    parse_relative "-10" 0 = some (-600) ∧
    dt_from_iso "2025-11-12" = some (toEpochSec 2025 11 12 0 0 0) ∧
    parse_relative "2025-11-12" 0 = none := by
  refine ⟨by decide, by decide, by decide⟩

/-- C5 (amended): `parse_relative` behaves as follows.
(1) For sign-then-digits-then-unit with unit in `{m,h,d,w}` it returns
`now` minus the offset.  (2) A sign-then-digits string with no trailing
unit letter also parses, the unit silently defaulting to minutes — so
`"-10"` is *not* rejected.  (3) A string ending in `'Z'` or containing
`'T'` takes the absolute branch, returning the parsed instant or `none`
if unparsable; this test is the code's only notion of an absolute form,
so a parsable absolute form without `'T'`/`'Z'` (a plain date) is not
parsed as an instant.  Among the remaining strings: (4) one with no
leading `'-'` yields `none`; (5) so does one containing no digit at all;
(6) so does one whose last character is a letter whose lower-case is
outside `{m,h,d,w}`. -/
theorem c5_parse_relative_behavior :
    (∀ (now : Int) (ds : List Char) (u : Char), ¬ ds = [] →
      (∀ c ∈ ds, c.isDigit = true) →
      u ∈ (['m', 'h', 'd', 'w'] : List Char) →
      parse_relative ⟨'-' :: (ds ++ [u])⟩ now
        = some (now - ((digitsToNat ds * unitSeconds u : Nat) : Int))) ∧
    (∀ (now : Int) (ds : List Char), ¬ ds = [] →
      (∀ c ∈ ds, c.isDigit = true) →
      (∀ c, ds.getLast? = some c → c.isAlpha = false) →
      parse_relative ⟨'-' :: ds⟩ now
        = some (now - ((digitsToNat ds * 60 : Nat) : Int))) ∧
    (∀ (s : String) (now : Int),
      s.data.getLast? = some 'Z' ∨ 'T' ∈ s.data →
      parse_relative s now = dt_from_iso s) ∧
    (∀ (s : String) (now : Int),
      ¬ (s.data.getLast? = some 'Z' ∨ 'T' ∈ s.data) →
      ¬ s.data.head? = some '-' →
      parse_relative s now = none) ∧
    (∀ (s : String) (now : Int),
      ¬ (s.data.getLast? = some 'Z' ∨ 'T' ∈ s.data) →
      s.data.filter Char.isDigit = [] →
      parse_relative s now = none) ∧
    (∀ (s : String) (now : Int) (c : Char),
      ¬ (s.data.getLast? = some 'Z' ∨ 'T' ∈ s.data) →
      s.data.getLast? = some c → c.isAlpha = true →
      ¬ c.toLower ∈ (['m', 'h', 'd', 'w'] : List Char) →
      parse_relative s now = none) := by
  refine ⟨?_, ?_, ?_, ?_, ?_, ?_⟩
  · intro now ds u hne hds hu
    simp only [List.mem_cons, List.not_mem_nil, or_false] at hu
    rcases hu with rfl | rfl | rfl | rfl <;>
      rw [parse_relative_dash_digits_unit now ds _ hne hds (by decide)
        (by decide) (by decide) (by decide) (by decide)] <;>
      rfl
  · intro now ds hne hds hlastd
    exact parse_relative_dash_digits_only now ds hne hds hlastd
  · intro s now habs
    have h1 : ¬ s.data = [] := by
      intro h0
      rw [h0] at habs
      rcases habs with h | h <;> simp at h
    show parse_relative_data s.data now = dt_from_iso_data s.data
    unfold parse_relative_data
    rw [if_neg h1, if_pos habs]
  · intro s now habs hnd
    show parse_relative_data s.data now = none
    unfold parse_relative_data
    by_cases h1 : s.data = []
    · rw [if_pos h1]
    · rw [if_neg h1, if_neg habs, if_pos hnd]
  · intro s now habs hdig
    show parse_relative_data s.data now = none
    unfold parse_relative_data
    by_cases h1 : s.data = []
    · rw [if_pos h1]
    · rw [if_neg h1, if_neg habs]
      by_cases hh : ¬ s.data.head? = some '-'
      · rw [if_pos hh]
      · rw [if_neg hh]
        simp only [hdig]
        exact if_pos trivial
  · intro s now c habs hlastc hca hcl
    have h1 : ¬ s.data = [] := by
      intro h0
      rw [h0] at hlastc
      exact absurd hlastc (by simp)
    show parse_relative_data s.data now = none
    unfold parse_relative_data
    rw [if_neg h1, if_neg habs]
    by_cases hh : ¬ s.data.head? = some '-'
    · rw [if_pos hh]
    · rw [if_neg hh]
      simp only [hlastc, hca, if_true]
      simp only [List.mem_cons, List.not_mem_nil, or_false, not_or] at hcl
      by_cases hnum : s.data.filter Char.isDigit = []
      · rw [if_pos hnum]
      · rw [if_neg hnum, if_neg hcl.1, if_neg hcl.2.1, if_neg hcl.2.2.1,
          if_neg hcl.2.2.2]

/-- Closed instances of the amended C5: a well-formed relative expression,
a parsable absolute instant, a string with no leading sign, and an
unsupported unit. -/
theorem c5_witness :
    parse_relative "-3d" 100 = some (-259100) ∧
    parse_relative "2025-11-12T10:30:00Z" 0
      = dt_from_iso "2025-11-12T10:30:00Z" ∧
    parse_relative "10m" 0 = none ∧
    parse_relative "-5x" 0 = none :=
  ⟨(c5_parse_relative_behavior.1 100 ['3'] 'd' (by decide) (by decide)
      (by decide)).trans (by decide),
   c5_parse_relative_behavior.2.2.1 "2025-11-12T10:30:00Z" 0 (by decide),
   c5_parse_relative_behavior.2.2.2.1 "10m" 0 (by decide) (by decide),
   c5_parse_relative_behavior.2.2.2.2.2 "-5x" 0 'x' (by decide)
     (by decide) (by decide) (by decide)⟩

/-- C3: for every query spec (with a positive limit; the default is 100),
matches are collected in forward file order, collection stops at `limit`
matches, and the chronological sort (descending when `newest_first`,
default true) is applied only to the at-most-`limit` collected matches:
`query` returns the sorted take-`limit` *prefix* of the match list.
Consequently — second conjunct, on four matching records with increasing
timestamps and `limit = 2` — the result differs from the two globally
most recent matches sorted. -/
theorem c3_query_truncates_scan_before_sort :
    (∀ (now : Int) (log : List LogLine) (q : Query),
      (∀ l ∈ log, lineTsParses l = true) →
      0 < q.limit.getD 100 →
      queryEvents now log q
        = some (sortByTs (q.newest_first.getD true)
            ((matchedEvents now log q).take (q.limit.getD 100).toNat))) ∧
    queryEvents 0 c3log c3q
      ≠ some ((sortByTs true (matchedEvents 0 c3log c3q)).take 2) := by
  constructor
  · intro now log q hts hlim
    have hts' : ∀ e : Event, LogLine.ev e ∈ log →
        (dt_from_iso e.ts).isSome = true := fun e he => hts _ he
    simp only [queryEvents]
    rw [queryLoop_eq_take q.s q.p q.o q.tag
      (q.since.bind (fun s => parse_relative s now))
      (q.untl.bind (fun s => parse_relative s now))
      (q.limit.getD 100) log hts' [] (by simpa using hlim)]
    simp only [Option.map_some, List.nil_append, List.length_nil,
      Nat.sub_zero]
    rfl
  · decide

/-- Closed instance of C3's general part on the four-record demonstration
log: the query result is the sorted 2-prefix of the forward-scan match
list (which the second conjunct of the claim theorem distinguishes from
the two newest matches). -/
theorem c3_witness :
    queryEvents 0 c3log c3q
      = some (sortByTs (c3q.newest_first.getD true)
          ((matchedEvents 0 c3log c3q).take (c3q.limit.getD 100).toNat)) :=
  c3_query_truncates_scan_before_sort.1 0 c3log c3q (by decide) (by decide)

end RobotWritersRoom
